import Mathlib

/-!
Shallow embedding of the `lc-m4` macro processor (`src/main.rs`).

Modelling conventions:
* Input bytes are `Nat` values in `0..256`.  Rust pushes bytes onto `String`s
  via `c as char`, so strings in the program are sequences of Unicode scalar
  values; we model every string as a `List Nat` of scalar values, which agrees
  with the byte view on all ASCII data used here.
* Rust machine integers (`i64`) are modelled as `Int` with explicit two's
  complement wrapping (`wrap64`) at every arithmetic step, matching release
  build semantics; the `u8` subtraction `c - b'0'` wraps modulo 256.
* `process::exit(1)` sites in `exec_reload_state` are modelled as
  `Except.error` values of the `RErr` type (all of them carry exit code 1 and
  a diagnostic in the real program).
* `stdout` is modelled as an accumulated output list.
-/

set_option maxRecDepth 100000

/-- Two's complement wrapping of an unbounded integer into the `i64` range,
used wherever the Rust code performs `i64` arithmetic. -/
def wrap64 (x : Int) : Int := (x + 2 ^ 63) % 2 ^ 64 - 2 ^ 63

/-- The wrapping `u8` subtraction `c - b'0'` from `read_int`
(release-mode semantics): `(c - 48) mod 256`. -/
def sub48 (c : Nat) : Nat := (c + 208) % 256

/-- Loop body of `read_int` (src/main.rs:96-111).  Consumes bytes up to and
including the first separator byte, records whether a `-` byte was seen
anywhere, and folds every other byte `c` as `result * 10 + (c - b'0')`.
Returns the accumulated value together with the unconsumed remainder of the
iterator. -/
def readIntGo (sep : Nat) : List Nat → Int → Bool → Int × List Nat
  | [], acc, neg => (wrap64 (acc * if neg then -1 else 1), [])
  | c :: rest, acc, neg =>
    if c = sep then (wrap64 (acc * if neg then -1 else 1), rest)
    else if c = 45 then readIntGo sep rest acc true
    else readIntGo sep rest (wrap64 (wrap64 (acc * 10) + Int.ofNat (sub48 c))) neg

/-- `read_int` (src/main.rs:96-111): reads an integer field terminated by
`sep`, returning the value and the rest of the input. -/
def readInt (l : List Nat) (sep : Nat) : Int × List Nat := readIntGo sep l 0 false

/-- `print_to_diversion` (src/main.rs:113-124).  Returns the text emitted to
primary output together with the updated diversion buffers.  The
`while diversion_data.len() <= target` loop is modelled by appending the
exact number of empty strings it pushes. -/
def printToDiversion (cur : Int) (content : List Nat) (bufs : List (List Nat)) :
    List Nat × List (List Nat) :=
  if cur = 0 then (content, bufs)
  else if 0 < cur then
    let target := (cur - 1).toNat
    let padded := bufs ++ List.replicate (target + 1 - bufs.length) []
    ([], padded.set target (padded.getD target [] ++ content))
  else ([], bufs)

/-- `MacroValue` (src/main.rs:30-33). -/
inductive MacroValue
  | Text : List Nat → MacroValue
  | BuiltinFunction : List Nat → MacroValue
deriving DecidableEq

/-- `process_macro` (src/main.rs:167-186): scans the definition stack from the
end for a binding whose name equals the token; a matched token produces no
output (the body only logs to stderr, marked TODO in the source), an
unmatched token is printed to the current diversion. -/
def processMacro (tok : List Nat) (defs : List (List Nat × MacroValue)) (cur : Int)
    (bufs : List (List Nat)) : List Nat × List (List Nat) :=
  if defs.reverse.any (fun d => d.1 == tok) then ([], bufs)
  else printToDiversion cur tok bufs

/-- `skip_comment` (src/main.rs:188-194): consume bytes up to and including
the first byte equal to `e`. -/
def skipComment : List Nat → Nat → List Nat
  | [], _ => []
  | c :: rest, e => if c = e then rest else skipComment rest e

/-- `Delimiters` (src/main.rs:126-131). -/
structure Delimiters where
  comment_start : Nat
  comment_end : Nat
  quote_start : Nat
  quote_end : Nat
deriving DecidableEq

/-- `Delimiters::new` (src/main.rs:134-143): `#`, newline, backtick,
apostrophe. -/
def Delimiters.new : Delimiters :=
  { comment_start := 35, comment_end := 10, quote_start := 96, quote_end := 39 }

/-- Loop of `process_text` (src/main.rs:196-237).  The call to `skip_comment`
on the shared iterator is inlined as the `Bool` in-comment flag: while the
flag is set, bytes are dropped until one equal to `comment_end` is consumed,
exactly as `skip_comment` does on the same iterator.  Arguments after the
delimiters/definitions/current-diversion: remaining input, in-comment flag,
current token `cur_tok`, accumulated primary output, diversion buffers. -/
def ptAux (dl : Delimiters) (defs : List (List Nat × MacroValue)) (cur : Int) :
    List Nat → Bool → List Nat → List Nat → List (List Nat) → List Nat × List (List Nat)
  | [], _, tok, out, bufs =>
    let pm := processMacro tok defs cur bufs
    (out ++ pm.1, pm.2)
  | c :: rest, true, tok, out, bufs =>
    if c = dl.comment_end then ptAux dl defs cur rest false tok out bufs
    else ptAux dl defs cur rest true tok out bufs
  | c :: rest, false, tok, out, bufs =>
    if c = dl.comment_start then
      let pm := processMacro tok defs cur bufs
      ptAux dl defs cur rest true tok (out ++ pm.1) pm.2
    else if c = 32 ∨ c = 9 ∨ c = 13 ∨ c = 10 then
      let pm := processMacro tok defs cur bufs
      let pw := printToDiversion cur [c] pm.2
      ptAux dl defs cur rest false [] (out ++ pm.1 ++ pw.1) pw.2
    else ptAux dl defs cur rest false (tok ++ [c]) out bufs

/-- `process_text` (src/main.rs:196-237): run the scanner over a whole input,
starting with an empty current token, returning the primary output produced
and the final diversion buffers.  The current diversion is never modified by
this function (the matched-macro arm of `process_macro` is unimplemented in
the source). -/
def processText (dl : Delimiters) (defs : List (List Nat × MacroValue)) (cur : Int)
    (data : List Nat) (bufs : List (List Nat)) : List Nat × List (List Nat) :=
  ptAux dl defs cur data false [] [] bufs

/-- ASCII view of a string literal as a list of scalar values. -/
def strBytes (s : String) : List Nat := s.data.map Char.toNat

/-- Interpreter state threaded through `exec_reload_state` and `main`
(src/main.rs:350-402): definition stack, current diversion, diversion
buffers, delimiters, and the primary output produced so far. -/
structure RState where
  defs : List (List Nat × MacroValue)
  cur : Int
  bufs : List (List Nat)
  delims : Delimiters
  out : List Nat
deriving DecidableEq

/-- The `process::exit(1)` sites of `exec_reload_state`
(src/main.rs:239-348), one constructor per diagnostic. -/
inductive RErr
  | commentDelimLen
  | quoteDelimLen
  | missingNewlineC
  | missingNewlineD
  | missingNewlineF
  | missingNewlineQ
  | missingNewlineT
  | missingNewlineV
  | badVersion
deriving DecidableEq

/-- The `C` record arm of `exec_reload_state` (src/main.rs:255-268): two
length fields (separators `,` and newline), both required to equal 1; two
delimiter bytes read with `unwrap_or` defaults `#` and newline; a mandatory
terminating newline.  Returns the updated state and the unconsumed input. -/
def handleC (st : RState) (rest : List Nat) : Except RErr (RState × List Nat) :=
  let p1 := readInt rest 44
  let p2 := readInt p1.2 10
  if p1.1 ≠ 1 ∨ p2.1 ≠ 1 then .error .commentDelimLen
  else
    let cs := p2.2.headD 35
    let ce := p2.2.tail.headD 10
    match p2.2.drop 2 with
    | [] => .error .missingNewlineC
    | c :: r =>
      if c = 10 then
        .ok ({ st with delims := { st.delims with comment_start := cs, comment_end := ce } }, r)
      else .error .missingNewlineC

/-- The `D` record arm of `exec_reload_state` (src/main.rs:269-282):
diversion number and content length, `content_len` content bytes (padded
with `#` past end-of-input, and an empty range when negative), then the
current diversion is set and the content written through
`print_to_diversion`; a mandatory terminating newline. -/
def handleD (st : RState) (rest : List Nat) : Except RErr (RState × List Nat) :=
  let p1 := readInt rest 44
  let p2 := readInt p1.2 10
  let n := p2.1.toNat
  let content := p2.2.take n ++ List.replicate (n - p2.2.length) 35
  let w := printToDiversion p1.1 content st.bufs
  match p2.2.drop n with
  | [] => .error .missingNewlineD
  | c :: r =>
    if c = 10 then .ok ({ st with cur := p1.1, bufs := w.2, out := st.out ++ w.1 }, r)
    else .error .missingNewlineD

/-- The `F` record arm of `exec_reload_state` (src/main.rs:283-299): name and
value lengths, then that many bytes of each (padded with `#` past
end-of-input), appending a builtin binding; a mandatory terminating
newline. -/
def handleF (st : RState) (rest : List Nat) : Except RErr (RState × List Nat) :=
  let p1 := readInt rest 44
  let p2 := readInt p1.2 10
  let n1 := p1.1.toNat
  let n2 := p2.1.toNat
  let name := p2.2.take n1 ++ List.replicate (n1 - p2.2.length) 35
  let rest2 := p2.2.drop n1
  let value := rest2.take n2 ++ List.replicate (n2 - rest2.length) 35
  match rest2.drop n2 with
  | [] => .error .missingNewlineF
  | c :: r =>
    if c = 10 then
      .ok ({ st with defs := st.defs ++ [(name, MacroValue.BuiltinFunction value)] }, r)
    else .error .missingNewlineF

/-- The `Q` record arm of `exec_reload_state` (src/main.rs:300-313), the
quote analogue of `handleC`. -/
def handleQ (st : RState) (rest : List Nat) : Except RErr (RState × List Nat) :=
  let p1 := readInt rest 44
  let p2 := readInt p1.2 10
  if p1.1 ≠ 1 ∨ p2.1 ≠ 1 then .error .quoteDelimLen
  else
    let qs := p2.2.headD 35
    let qe := p2.2.tail.headD 10
    match p2.2.drop 2 with
    | [] => .error .missingNewlineQ
    | c :: r =>
      if c = 10 then
        .ok ({ st with delims := { st.delims with quote_start := qs, quote_end := qe } }, r)
      else .error .missingNewlineQ

/-- The `T` record arm of `exec_reload_state` (src/main.rs:314-330), the
text-macro analogue of `handleF`. -/
def handleT (st : RState) (rest : List Nat) : Except RErr (RState × List Nat) :=
  let p1 := readInt rest 44
  let p2 := readInt p1.2 10
  let n1 := p1.1.toNat
  let n2 := p2.1.toNat
  let name := p2.2.take n1 ++ List.replicate (n1 - p2.2.length) 35
  let rest2 := p2.2.drop n1
  let value := rest2.take n2 ++ List.replicate (n2 - rest2.length) 35
  match rest2.drop n2 with
  | [] => .error .missingNewlineT
  | c :: r =>
    if c = 10 then .ok ({ st with defs := st.defs ++ [(name, MacroValue.Text value)] }, r)
    else .error .missingNewlineT

/-- The `V` record arm of `exec_reload_state` (src/main.rs:331-343): the next
byte must be `1`, followed by a mandatory newline; the state is unchanged. -/
def handleV (st : RState) (rest : List Nat) : Except RErr (RState × List Nat) :=
  match rest with
  | [] => .error .badVersion
  | c1 :: rest2 =>
    if c1 = 49 then
      match rest2 with
      | [] => .error .missingNewlineV
      | c2 :: r => if c2 = 10 then .ok (st, r) else .error .missingNewlineV
    else .error .badVersion

/-- Loop of `exec_reload_state` (src/main.rs:239-348), fuelled: each
iteration consumes at least the tag byte, so fuel `length + 1` is always
sufficient (`rsGo_fuel_eq` below).  Branch order follows the source: current
`comment_start` first, then tags `C`, `D`, `F`, `Q`, `T`, `V`, and any other
byte is written immediately to primary output. -/
def rsGo : Nat → RState → List Nat → Except RErr RState
  | 0, st, _ => .ok st
  | _ + 1, st, [] => .ok st
  | fuel + 1, st, c :: rest =>
    if c = st.delims.comment_start then
      rsGo fuel st (skipComment rest st.delims.comment_end)
    else if c = 67 then
      match handleC st rest with
      | .error e => .error e
      | .ok (st', r) => rsGo fuel st' r
    else if c = 68 then
      match handleD st rest with
      | .error e => .error e
      | .ok (st', r) => rsGo fuel st' r
    else if c = 70 then
      match handleF st rest with
      | .error e => .error e
      | .ok (st', r) => rsGo fuel st' r
    else if c = 81 then
      match handleQ st rest with
      | .error e => .error e
      | .ok (st', r) => rsGo fuel st' r
    else if c = 84 then
      match handleT st rest with
      | .error e => .error e
      | .ok (st', r) => rsGo fuel st' r
    else if c = 86 then
      match handleV st rest with
      | .error e => .error e
      | .ok (st', r) => rsGo fuel st' r
    else
      rsGo fuel { st with out := st.out ++ [c] } rest

/-- `exec_reload_state` (src/main.rs:239-348) on a fully read input. -/
def execReloadState (st : RState) (data : List Nat) : Except RErr RState :=
  rsGo (data.length + 1) st data

/-- Initial definition stack of `main` (src/main.rs:356): the single builtin
`divert`. -/
def initDefs : List (List Nat × MacroValue) :=
  [(strBytes "divert", MacroValue.BuiltinFunction (strBytes "divert"))]

/-- Initial interpreter state of `main` (src/main.rs:350-359). -/
def initState : RState :=
  { defs := initDefs, cur := 0, bufs := [], delims := Delimiters.new, out := [] }

/-- Digit-folding accumulator described by the specification of `read_int`:
every consumed byte other than `-` is folded as `result * 10 + (b - 48)`
(with the same wrapping arithmetic as the code); used to state the
characterization of `readInt`. -/
def foldDigits (l : List Nat) : Int :=
  l.foldl (fun acc c => wrap64 (wrap64 (acc * 10) + Int.ofNat (sub48 c))) 0

instance : DecidableEq (Except RErr RState) := fun
  | .ok a, .ok b =>
    if h : a = b then .isTrue (by rw [h]) else .isFalse (by simp [h])
  | .ok _, .error _ => .isFalse (by simp)
  | .error _, .ok _ => .isFalse (by simp)
  | .error a, .error b =>
    if h : a = b then .isTrue (by rw [h]) else .isFalse (by simp [h])

/-! ### Helper lemmas: consumption bounds and fuel adequacy -/

theorem skipComment_length_le (l : List Nat) (e : Nat) :
    (skipComment l e).length ≤ l.length := by
  induction l with
  | nil => simp [skipComment]
  | cons c rest ih =>
    simp only [skipComment]
    split
    · exact Nat.le_succ _
    · exact le_trans ih (Nat.le_succ _)

theorem readIntGo_length_le (sep : Nat) (l : List Nat) :
    ∀ acc neg, (readIntGo sep l acc neg).2.length ≤ l.length := by
  induction l with
  | nil => intro acc neg; simp [readIntGo]
  | cons c rest ih =>
    intro acc neg
    simp only [readIntGo]
    split
    · exact Nat.le_succ _
    · split
      · exact le_trans (ih _ _) (Nat.le_succ _)
      · exact le_trans (ih _ _) (Nat.le_succ _)

theorem readInt_length_le (l : List Nat) (sep : Nat) :
    (readInt l sep).2.length ≤ l.length :=
  readIntGo_length_le sep l 0 false

theorem handleC_length (st st' : RState) (rest r : List Nat)
    (h : handleC st rest = .ok (st', r)) : r.length ≤ rest.length := by
  have h1 := readInt_length_le rest 44
  have h2 := readInt_length_le (readInt rest 44).2 10
  simp only [handleC] at h
  split_ifs at h
  rcases hd : (readInt (readInt rest 44).2 10).2.drop 2 with _ | ⟨c, r'⟩ <;> rw [hd] at h
  · simp at h
  · dsimp only at h
    split_ifs at h
    have hl := congrArg List.length hd
    simp only [List.length_drop, List.length_cons] at hl
    simp only [Except.ok.injEq, Prod.mk.injEq] at h
    obtain ⟨-, rfl⟩ := h
    omega

theorem handleD_length (st st' : RState) (rest r : List Nat)
    (h : handleD st rest = .ok (st', r)) : r.length ≤ rest.length := by
  have h1 := readInt_length_le rest 44
  have h2 := readInt_length_le (readInt rest 44).2 10
  simp only [handleD] at h
  rcases hd : (readInt (readInt rest 44).2 10).2.drop (readInt (readInt rest 44).2 10).1.toNat
    with _ | ⟨c, r'⟩ <;> rw [hd] at h
  · simp at h
  · dsimp only at h
    split_ifs at h
    have hl := congrArg List.length hd
    simp only [List.length_drop, List.length_cons] at hl
    simp only [Except.ok.injEq, Prod.mk.injEq] at h
    obtain ⟨-, rfl⟩ := h
    omega

theorem handleF_length (st st' : RState) (rest r : List Nat)
    (h : handleF st rest = .ok (st', r)) : r.length ≤ rest.length := by
  have h1 := readInt_length_le rest 44
  have h2 := readInt_length_le (readInt rest 44).2 10
  simp only [handleF] at h
  rcases hd : ((readInt (readInt rest 44).2 10).2.drop (readInt rest 44).1.toNat).drop
      (readInt (readInt rest 44).2 10).1.toNat with _ | ⟨c, r'⟩ <;> rw [hd] at h
  · simp at h
  · dsimp only at h
    split_ifs at h
    have hl := congrArg List.length hd
    simp only [List.length_drop, List.length_cons] at hl
    simp only [Except.ok.injEq, Prod.mk.injEq] at h
    obtain ⟨-, rfl⟩ := h
    omega

theorem handleQ_length (st st' : RState) (rest r : List Nat)
    (h : handleQ st rest = .ok (st', r)) : r.length ≤ rest.length := by
  have h1 := readInt_length_le rest 44
  have h2 := readInt_length_le (readInt rest 44).2 10
  simp only [handleQ] at h
  split_ifs at h
  rcases hd : (readInt (readInt rest 44).2 10).2.drop 2 with _ | ⟨c, r'⟩ <;> rw [hd] at h
  · simp at h
  · dsimp only at h
    split_ifs at h
    have hl := congrArg List.length hd
    simp only [List.length_drop, List.length_cons] at hl
    simp only [Except.ok.injEq, Prod.mk.injEq] at h
    obtain ⟨-, rfl⟩ := h
    omega

theorem handleT_length (st st' : RState) (rest r : List Nat)
    (h : handleT st rest = .ok (st', r)) : r.length ≤ rest.length := by
  have h1 := readInt_length_le rest 44
  have h2 := readInt_length_le (readInt rest 44).2 10
  simp only [handleT] at h
  rcases hd : ((readInt (readInt rest 44).2 10).2.drop (readInt rest 44).1.toNat).drop
      (readInt (readInt rest 44).2 10).1.toNat with _ | ⟨c, r'⟩ <;> rw [hd] at h
  · simp at h
  · dsimp only at h
    split_ifs at h
    have hl := congrArg List.length hd
    simp only [List.length_drop, List.length_cons] at hl
    simp only [Except.ok.injEq, Prod.mk.injEq] at h
    obtain ⟨-, rfl⟩ := h
    omega

theorem handleV_length (st st' : RState) (rest r : List Nat)
    (h : handleV st rest = .ok (st', r)) : r.length ≤ rest.length := by
  simp only [handleV] at h
  rcases rest with _ | ⟨c1, rest2⟩
  · simp at h
  · dsimp only at h
    split_ifs at h
    rcases rest2 with _ | ⟨c2, r'⟩
    · simp at h
    · dsimp only at h
      split_ifs at h
      simp only [Except.ok.injEq, Prod.mk.injEq] at h
      obtain ⟨-, rfl⟩ := h
      simp only [List.length_cons]
      omega

theorem rsGo_fuel_eq : ∀ (f1 f2 : Nat) (st : RState) (data : List Nat),
    data.length < f1 → data.length < f2 → rsGo f1 st data = rsGo f2 st data := by
  intro f1
  induction f1 with
  | zero => intro f2 st data h1 _; exact absurd h1 (Nat.not_lt_zero _)
  | succ n ih =>
    intro f2 st data h1 h2
    cases f2 with
    | zero => exact absurd h2 (Nat.not_lt_zero _)
    | succ m =>
      cases data with
      | nil => rfl
      | cons c rest =>
        have hrn : rest.length < n := by
          simpa using h1
        have hrm : rest.length < m := by
          simpa using h2
        simp only [rsGo]
        by_cases hc : c = st.delims.comment_start
        · rw [if_pos hc, if_pos hc]
          have hs := skipComment_length_le rest st.delims.comment_end
          exact ih _ _ _ (by omega) (by omega)
        · rw [if_neg hc, if_neg hc]
          by_cases h67 : c = 67
          · rw [if_pos h67, if_pos h67]
            rcases hh : handleC st rest with e | ⟨st', r⟩
            · rfl
            · have := handleC_length st st' rest r hh
              exact ih _ _ _ (by omega) (by omega)
          · rw [if_neg h67, if_neg h67]
            by_cases h68 : c = 68
            · rw [if_pos h68, if_pos h68]
              rcases hh : handleD st rest with e | ⟨st', r⟩
              · rfl
              · have := handleD_length st st' rest r hh
                exact ih _ _ _ (by omega) (by omega)
            · rw [if_neg h68, if_neg h68]
              by_cases h70 : c = 70
              · rw [if_pos h70, if_pos h70]
                rcases hh : handleF st rest with e | ⟨st', r⟩
                · rfl
                · have := handleF_length st st' rest r hh
                  exact ih _ _ _ (by omega) (by omega)
              · rw [if_neg h70, if_neg h70]
                by_cases h81 : c = 81
                · rw [if_pos h81, if_pos h81]
                  rcases hh : handleQ st rest with e | ⟨st', r⟩
                  · rfl
                  · have := handleQ_length st st' rest r hh
                    exact ih _ _ _ (by omega) (by omega)
                · rw [if_neg h81, if_neg h81]
                  by_cases h84 : c = 84
                  · rw [if_pos h84, if_pos h84]
                    rcases hh : handleT st rest with e | ⟨st', r⟩
                    · rfl
                    · have := handleT_length st st' rest r hh
                      exact ih _ _ _ (by omega) (by omega)
                  · rw [if_neg h84, if_neg h84]
                    by_cases h86 : c = 86
                    · rw [if_pos h86, if_pos h86]
                      rcases hh : handleV st rest with e | ⟨st', r⟩
                      · rfl
                      · have := handleV_length st st' rest r hh
                        exact ih _ _ _ (by omega) (by omega)
                    · rw [if_neg h86, if_neg h86]
                      exact ih _ _ _ (by omega) (by omega)

theorem rsGo_as_exec (f : Nat) (st : RState) (data : List Nat) (h : data.length < f) :
    rsGo f st data = execReloadState st data :=
  rsGo_fuel_eq f (data.length + 1) st data h (Nat.lt_succ_self _)

theorem execReloadState_comment (st : RState) (c : Nat) (rest : List Nat)
    (h : c = st.delims.comment_start) :
    execReloadState st (c :: rest) =
      execReloadState st (skipComment rest st.delims.comment_end) := by
  show rsGo (rest.length + 1 + 1) st (c :: rest) = _
  simp only [rsGo]
  rw [if_pos h]
  exact rsGo_as_exec _ _ _ (Nat.lt_succ_of_le (skipComment_length_le rest _))

theorem execReloadState_tagC (st : RState) (rest : List Nat)
    (h : st.delims.comment_start ≠ 67) :
    execReloadState st (67 :: rest) =
      match handleC st rest with
      | .error e => .error e
      | .ok (st', r) => execReloadState st' r := by
  show rsGo (rest.length + 1 + 1) st (67 :: rest) = _
  simp only [rsGo]
  rw [if_neg (fun hh => h hh.symm)]
  norm_num
  rcases hh : handleC st rest with e | ⟨st', r⟩
  · rfl
  · exact rsGo_as_exec _ _ _ (Nat.lt_succ_of_le (handleC_length st st' rest r hh))

theorem execReloadState_tagD (st : RState) (rest : List Nat)
    (h : st.delims.comment_start ≠ 68) :
    execReloadState st (68 :: rest) =
      match handleD st rest with
      | .error e => .error e
      | .ok (st', r) => execReloadState st' r := by
  show rsGo (rest.length + 1 + 1) st (68 :: rest) = _
  simp only [rsGo]
  rw [if_neg (fun hh => h hh.symm)]
  norm_num
  rcases hh : handleD st rest with e | ⟨st', r⟩
  · rfl
  · exact rsGo_as_exec _ _ _ (Nat.lt_succ_of_le (handleD_length st st' rest r hh))

theorem execReloadState_tagF (st : RState) (rest : List Nat)
    (h : st.delims.comment_start ≠ 70) :
    execReloadState st (70 :: rest) =
      match handleF st rest with
      | .error e => .error e
      | .ok (st', r) => execReloadState st' r := by
  show rsGo (rest.length + 1 + 1) st (70 :: rest) = _
  simp only [rsGo]
  rw [if_neg (fun hh => h hh.symm)]
  norm_num
  rcases hh : handleF st rest with e | ⟨st', r⟩
  · rfl
  · exact rsGo_as_exec _ _ _ (Nat.lt_succ_of_le (handleF_length st st' rest r hh))

theorem execReloadState_tagQ (st : RState) (rest : List Nat)
    (h : st.delims.comment_start ≠ 81) :
    execReloadState st (81 :: rest) =
      match handleQ st rest with
      | .error e => .error e
      | .ok (st', r) => execReloadState st' r := by
  show rsGo (rest.length + 1 + 1) st (81 :: rest) = _
  simp only [rsGo]
  rw [if_neg (fun hh => h hh.symm)]
  norm_num
  rcases hh : handleQ st rest with e | ⟨st', r⟩
  · rfl
  · exact rsGo_as_exec _ _ _ (Nat.lt_succ_of_le (handleQ_length st st' rest r hh))

theorem execReloadState_tagT (st : RState) (rest : List Nat)
    (h : st.delims.comment_start ≠ 84) :
    execReloadState st (84 :: rest) =
      match handleT st rest with
      | .error e => .error e
      | .ok (st', r) => execReloadState st' r := by
  show rsGo (rest.length + 1 + 1) st (84 :: rest) = _
  simp only [rsGo]
  rw [if_neg (fun hh => h hh.symm)]
  norm_num
  rcases hh : handleT st rest with e | ⟨st', r⟩
  · rfl
  · exact rsGo_as_exec _ _ _ (Nat.lt_succ_of_le (handleT_length st st' rest r hh))

theorem execReloadState_tagV (st : RState) (rest : List Nat)
    (h : st.delims.comment_start ≠ 86) :
    execReloadState st (86 :: rest) =
      match handleV st rest with
      | .error e => .error e
      | .ok (st', r) => execReloadState st' r := by
  show rsGo (rest.length + 1 + 1) st (86 :: rest) = _
  simp only [rsGo]
  rw [if_neg (fun hh => h hh.symm)]
  norm_num
  rcases hh : handleV st rest with e | ⟨st', r⟩
  · rfl
  · exact rsGo_as_exec _ _ _ (Nat.lt_succ_of_le (handleV_length st st' rest r hh))

/-! ### Helper lemmas about the text processor -/

theorem ptAux_noSpecial (dl : Delimiters) (defs : List (List Nat × MacroValue)) (cur : Int) :
    ∀ (l tok out : List Nat) (bufs : List (List Nat)),
      (∀ c ∈ l, c ≠ dl.comment_start ∧ c ≠ 32 ∧ c ≠ 9 ∧ c ≠ 13 ∧ c ≠ 10) →
      ptAux dl defs cur l false tok out bufs =
        (out ++ (processMacro (tok ++ l) defs cur bufs).1,
          (processMacro (tok ++ l) defs cur bufs).2) := by
  intro l
  induction l with
  | nil => intro tok out bufs _; simp [ptAux]
  | cons c rest ih =>
    intro tok out bufs hl
    have hc := hl c (List.mem_cons_self c rest)
    simp only [ptAux]
    rw [if_neg hc.1, if_neg (by rcases hc with ⟨-, h2, h3, h4, h5⟩; simp [h2, h3, h4, h5])]
    rw [ih (tok ++ [c]) out bufs (fun d hd => hl d (List.mem_cons_of_mem c hd))]
    simp [List.append_assoc]

theorem ptAux_commentSkip (dl : Delimiters) (defs : List (List Nat × MacroValue)) (cur : Int) :
    ∀ (s : List Nat), dl.comment_end ∉ s →
      ∀ (rest tok out : List Nat) (bufs : List (List Nat)),
        ptAux dl defs cur (s ++ dl.comment_end :: rest) true tok out bufs =
          ptAux dl defs cur rest false tok out bufs := by
  intro s
  induction s with
  | nil => intro _ rest tok out bufs; simp [ptAux]
  | cons c s ih =>
    intro hs rest tok out bufs
    simp only [List.cons_append, ptAux]
    have hcne : c ≠ dl.comment_end := fun h => hs (by simp [h])
    rw [if_neg hcne]
    exact ih (fun h => hs (List.mem_cons_of_mem c h)) rest tok out bufs

theorem pad_getD (bufs : List (List Nat)) (n j : Nat) :
    (bufs ++ List.replicate n ([] : List Nat)).getD j [] = bufs.getD j [] := by
  rcases lt_or_ge j bufs.length with hj | hj
  · rw [List.getD_eq_getElem?_getD, List.getD_eq_getElem?_getD, List.getElem?_append_left hj]
  · rw [List.getD_eq_getElem?_getD, List.getD_eq_getElem?_getD, List.getElem?_append_right hj,
      List.getElem?_eq_none hj, List.getElem?_replicate]
    split_ifs <;> rfl

/-! ### Claim theorems -/

/-- C1, counterexample: with default delimiters and only the initial
definition stack, processing `quote_start ++ "abc" ++ quote_end` does NOT
write `"abc"`: the delimiters are kept, so the claim that the outermost
delimiter pair is stripped is false on this input. -/
theorem quote_delimiters_not_stripped :
    processText Delimiters.new initDefs 0 (strBytes "`abc'") [] = (strBytes "`abc'", []) ∧
    strBytes "`abc'" ≠ strBytes "abc" :=
  ⟨by decide, by decide⟩

/-- C1, amended: the scanner has no quote handling at all, so for any `s`
made of ordinary bytes (no whitespace, no `comment_start`) such that the
whole bracketed word matches no binding, processing
`quote_start ++ s ++ quote_end` writes `quote_start ++ s ++ quote_end`
unchanged — the delimiter pair is not stripped, and nothing is
macro-expanded. -/
theorem quote_passthrough_verbatim (defs : List (List Nat × MacroValue))
    (bufs : List (List Nat)) (s : List Nat)
    (hs : ∀ c ∈ s, c ≠ 35 ∧ c ≠ 32 ∧ c ≠ 9 ∧ c ≠ 13 ∧ c ≠ 10)
    (hm : defs.reverse.any (fun d => d.1 == 96 :: (s ++ [39])) = false) :
    processText Delimiters.new defs 0 (96 :: (s ++ [39])) bufs = (96 :: (s ++ [39]), bufs) := by
  have hall : ∀ c ∈ 96 :: (s ++ [39]),
      c ≠ Delimiters.new.comment_start ∧ c ≠ 32 ∧ c ≠ 9 ∧ c ≠ 13 ∧ c ≠ 10 := by
    intro c hc
    simp only [List.mem_cons, List.mem_append, List.mem_singleton] at hc
    rcases hc with rfl | hc | rfl | hc
    · decide
    · exact hs c hc
    · decide
    · exact absurd hc (List.not_mem_nil c)
  unfold processText
  rw [ptAux_noSpecial Delimiters.new defs 0 (96 :: (s ++ [39])) [] [] bufs hall]
  simp only [List.nil_append, processMacro]
  rw [if_neg (by simp [hm])]
  simp [printToDiversion]

theorem quote_passthrough_verbatim_witness :
    processText Delimiters.new initDefs 0 (96 :: (strBytes "abc" ++ [39])) [] =
      (96 :: (strBytes "abc" ++ [39]), []) :=
  quote_passthrough_verbatim initDefs [] (strBytes "abc") (by decide) (by decide)

/-- C2: a self-recursive text macro (`x` bound to `"x"`) is NOT re-scanned
and never triggers `NestingLimitExceeded`: `process_text` terminates
normally and the matched word is silently dropped, producing empty output.
(The source parses `--nesting-limit` and then discards it, and
`process_macro` performs no substitution.) -/
theorem self_recursive_macro_silently_dropped :
    processText Delimiters.new (initDefs ++ [(strBytes "x", MacroValue.Text (strBytes "x"))]) 0
      (strBytes "x") [] = ([], []) := by
  decide

/-- C3: a word matching a text binding (`foo` bound to `"bar"`) does not
substitute its replacement text — the word is dropped and nothing is
written; an unmatched word is written to the diversion store verbatim. -/
theorem matched_text_binding_not_substituted :
    processText Delimiters.new (initDefs ++ [(strBytes "foo", MacroValue.Text (strBytes "bar"))])
      0 (strBytes "foo") [] = ([], []) ∧
    processText Delimiters.new initDefs 0 (strBytes "plugh") [] = (strBytes "plugh", []) :=
  ⟨by decide, by decide⟩

/-- C4, counterexample: with default delimiters, processing
`comment_start ++ "abc" ++ comment_end` produces empty output, not
`comment_start ++ "abc" ++ comment_end`, so comment transparency fails. -/
theorem comment_not_passed_through :
    processText Delimiters.new initDefs 0 (strBytes "#abc\n") [] = ([], []) ∧
    ([] : List Nat) ≠ strBytes "#abc\n" :=
  ⟨by decide, by decide⟩

/-- C4, amended: a comment is removed from the output entirely — processing
`comment_start ++ s ++ comment_end` (with `s` free of `comment_end`) writes
nothing: the body and both delimiters are deleted, and nothing in the
comment is macro-expanded. -/
theorem comment_removed_from_output (s : List Nat) (bufs : List (List Nat)) (h : 10 ∉ s) :
    processText Delimiters.new initDefs 0 (35 :: (s ++ [10])) bufs = ([], bufs) := by
  have hpm : ∀ b : List (List Nat), processMacro [] initDefs 0 b = ([], b) := by
    intro b
    unfold processMacro
    rw [if_neg (by decide)]
    unfold printToDiversion
    rw [if_pos rfl]
  unfold processText
  simp only [ptAux]
  rw [if_pos (show (35 : Nat) = Delimiters.new.comment_start from rfl), hpm bufs]
  dsimp only
  simp only [List.append_nil]
  show ptAux Delimiters.new initDefs 0 (s ++ Delimiters.new.comment_end :: []) true [] [] bufs =
    ([], bufs)
  rw [ptAux_commentSkip Delimiters.new initDefs 0 s h [] [] [] bufs]
  simp only [ptAux]
  rw [hpm bufs]
  simp

theorem comment_removed_from_output_witness :
    processText Delimiters.new initDefs 0 (35 :: (strBytes "abc" ++ [10])) [] = ([], []) :=
  comment_removed_from_output (strBytes "abc") [] (by decide)

/-- C7: the diversion-write rule of `print_to_diversion` — with current
diversion 0 the text goes directly to primary output; with `k > 0` the text
is appended to buffer `k - 1`, buffers being extended on demand with empty
strings so that every index up to `k - 1` is present (length becomes
`max (old length) k`, other entries unchanged); with `k < 0` the text is
discarded. -/
theorem diversion_write_rule :
    (∀ (content : List Nat) (bufs : List (List Nat)),
      printToDiversion 0 content bufs = (content, bufs)) ∧
    (∀ (k : Int) (content : List Nat) (bufs : List (List Nat)), 0 < k →
      (printToDiversion k content bufs).1 = [] ∧
      (printToDiversion k content bufs).2.length = max bufs.length ((k - 1).toNat + 1) ∧
      (printToDiversion k content bufs).2.getD (k - 1).toNat [] =
        bufs.getD (k - 1).toNat [] ++ content ∧
      ∀ j, j ≠ (k - 1).toNat →
        (printToDiversion k content bufs).2.getD j [] = bufs.getD j []) ∧
    (∀ (k : Int) (content : List Nat) (bufs : List (List Nat)), k < 0 →
      printToDiversion k content bufs = ([], bufs)) := by
  refine ⟨fun content bufs => by simp [printToDiversion], ?_, ?_⟩
  · intro k content bufs hk
    have hk0 : ¬(k = 0) := by omega
    simp only [printToDiversion]
    rw [if_neg hk0, if_pos hk]
    dsimp only
    refine ⟨rfl, ?_, ?_, ?_⟩
    · rw [List.length_set]
      simp only [List.length_append, List.length_replicate]
      omega
    · have htlt : (k - 1).toNat <
          (bufs ++ List.replicate ((k - 1).toNat + 1 - bufs.length) ([] : List Nat)).length := by
        simp only [List.length_append, List.length_replicate]
        omega
      rw [List.getD_eq_getElem?_getD, List.getElem?_set_eq_of_lt _ htlt]
      simp only [Option.getD_some]
      rw [pad_getD]
    · intro j hj
      rw [List.getD_eq_getElem?_getD, List.getElem?_set_ne (fun hh => hj hh.symm),
        ← List.getD_eq_getElem?_getD, pad_getD]
  · intro k content bufs hk
    have hk0 : ¬(k = 0) := by omega
    have hkneg : ¬(0 < k) := by omega
    simp [printToDiversion, hk0, hkneg]

theorem diversion_write_rule_witness :
    (printToDiversion 2 (strBytes "hi") []).2.getD 1 [] = strBytes "hi" ∧
    printToDiversion (-1) (strBytes "hi") [] = ([], []) := by
  constructor
  · exact ((diversion_write_rule.2.1 2 (strBytes "hi") [] (by decide)).2.2.1).trans (by decide)
  · exact diversion_write_rule.2.2 (-1) (strBytes "hi") [] (by decide)

/-- C9: the current token is not cleared at a `comment_start` byte — the
accumulated word is emitted at the comment, retained, extended by the bytes
after the comment, and emitted again: `"foo#c\nbar "` yields
`"foofoobar "`. -/
theorem comment_does_not_clear_token :
    processText Delimiters.new initDefs 0 (strBytes "foo#c\nbar ") [] =
      (strBytes "foofoobar ", []) := by
  decide

/-- C5, counterexample: a reload-state input that does not begin with a `V`
record decodes successfully and its `T` record takes effect — no leading
version validation happens. -/
theorem reload_no_leading_version_required :
    execReloadState initState (strBytes "T1,1\nab\n") =
      .ok { defs := initDefs ++ [(strBytes "a", MacroValue.Text (strBytes "b"))], cur := 0,
            bufs := [], delims := Delimiters.new, out := [] } := by
  decide

/-- C5, amended: the `V` record is validated only where it appears: a `V`
tag followed by `1` and a newline is consumed with no effect; a `V` tag
followed by anything else (or end of input) is fatal with the bad-version
error, and `V1` without its newline is fatal with the missing-newline
error.  No leading version record is required. -/
theorem version_record_validated_in_place (st : RState)
    (h : st.delims.comment_start ≠ 86) :
    (∀ r, execReloadState st (86 :: 49 :: 10 :: r) = execReloadState st r) ∧
    (execReloadState st [86] = .error .badVersion) ∧
    (∀ c r, c ≠ 49 → execReloadState st (86 :: c :: r) = .error .badVersion) ∧
    (execReloadState st [86, 49] = .error .missingNewlineV) ∧
    (∀ c r, c ≠ 10 → execReloadState st (86 :: 49 :: c :: r) = .error .missingNewlineV) := by
  refine ⟨?_, ?_, ?_, ?_, ?_⟩
  · intro r
    rw [execReloadState_tagV st _ h]
    simp [handleV]
  · rw [execReloadState_tagV st _ h]
    simp [handleV]
  · intro c r hc
    rw [execReloadState_tagV st _ h]
    simp [handleV, hc]
  · rw [execReloadState_tagV st _ h]
    simp [handleV]
  · intro c r hc
    rw [execReloadState_tagV st _ h]
    simp [handleV, hc]

theorem version_record_validated_in_place_witness :
    execReloadState initState (strBytes "V1\nx") =
      .ok { defs := initDefs, cur := 0, bufs := [], delims := Delimiters.new,
            out := [120] } ∧
    execReloadState initState (strBytes "V2\n") = .error .badVersion ∧
    execReloadState initState (strBytes "V1x") = .error .missingNewlineV := by
  have h := version_record_validated_in_place initState (by decide)
  refine ⟨?_, ?_, ?_⟩
  · exact (h.1 (strBytes "x")).trans (by decide)
  · exact h.2.2.1 50 [10] (by decide)
  · exact h.2.2.2.2 120 [] (by decide)

/-- C6, counterexample: the malformed length field `a` in a `D` record is
not rejected: `"Da,0\n\n"` decodes successfully, the byte `a` having been
folded to the diversion number 49. -/
theorem malformed_length_field_accepted :
    execReloadState initState (strBytes "Da,0\n\n") =
      .ok { defs := initDefs, cur := 49, bufs := List.replicate 49 [],
            delims := Delimiters.new, out := [] } := by
  decide

/-- C6, amended: decoding is fail-fast for the checks the code performs — a
`C` or `Q` record whose start or end length field differs from 1 is fatal,
and a missing terminating newline after a `C`, `D`, `F`, `Q`, `T` or `V`
record is fatal — but a malformed (non-digit) length field is not itself
rejected: `read_int` folds any byte into the number and decoding
proceeds (see the counterexample). -/
theorem reload_fail_fast_checks (st : RState) :
    (∀ rest, st.delims.comment_start ≠ 67 →
      ((readInt rest 44).1 ≠ 1 ∨ (readInt (readInt rest 44).2 10).1 ≠ 1) →
      execReloadState st (67 :: rest) = .error .commentDelimLen) ∧
    (∀ rest, st.delims.comment_start ≠ 81 →
      ((readInt rest 44).1 ≠ 1 ∨ (readInt (readInt rest 44).2 10).1 ≠ 1) →
      execReloadState st (81 :: rest) = .error .quoteDelimLen) ∧
    (∀ rest, st.delims.comment_start ≠ 67 →
      (readInt rest 44).1 = 1 → (readInt (readInt rest 44).2 10).1 = 1 →
      ((readInt (readInt rest 44).2 10).2.drop 2).head? ≠ some 10 →
      execReloadState st (67 :: rest) = .error .missingNewlineC) ∧
    (∀ rest, st.delims.comment_start ≠ 68 →
      ((readInt (readInt rest 44).2 10).2.drop
          (readInt (readInt rest 44).2 10).1.toNat).head? ≠ some 10 →
      execReloadState st (68 :: rest) = .error .missingNewlineD) ∧
    (∀ rest, st.delims.comment_start ≠ 70 →
      (((readInt (readInt rest 44).2 10).2.drop (readInt rest 44).1.toNat).drop
          (readInt (readInt rest 44).2 10).1.toNat).head? ≠ some 10 →
      execReloadState st (70 :: rest) = .error .missingNewlineF) ∧
    (∀ rest, st.delims.comment_start ≠ 81 →
      (readInt rest 44).1 = 1 → (readInt (readInt rest 44).2 10).1 = 1 →
      ((readInt (readInt rest 44).2 10).2.drop 2).head? ≠ some 10 →
      execReloadState st (81 :: rest) = .error .missingNewlineQ) ∧
    (∀ rest, st.delims.comment_start ≠ 84 →
      (((readInt (readInt rest 44).2 10).2.drop (readInt rest 44).1.toNat).drop
          (readInt (readInt rest 44).2 10).1.toNat).head? ≠ some 10 →
      execReloadState st (84 :: rest) = .error .missingNewlineT) ∧
    (∀ c rest, st.delims.comment_start ≠ 86 → c ≠ 10 →
      execReloadState st (86 :: 49 :: c :: rest) = .error .missingNewlineV) := by
  refine ⟨?_, ?_, ?_, ?_, ?_, ?_, ?_, ?_⟩
  · intro rest hc hlen
    rw [execReloadState_tagC st rest hc]
    simp only [handleC]
    rw [if_pos hlen]
  · intro rest hc hlen
    rw [execReloadState_tagQ st rest hc]
    simp only [handleQ]
    rw [if_pos hlen]
  · intro rest hc h1 h2 hterm
    rw [execReloadState_tagC st rest hc]
    simp only [handleC]
    rw [if_neg (by simp [h1, h2])]
    rcases hd : (readInt (readInt rest 44).2 10).2.drop 2 with _ | ⟨c, r⟩
    · rfl
    · rw [hd] at hterm
      simp only [List.head?_cons, ne_eq, Option.some.injEq] at hterm
      dsimp only
      rw [if_neg hterm]
  · intro rest hc hterm
    rw [execReloadState_tagD st rest hc]
    simp only [handleD]
    rcases hd : (readInt (readInt rest 44).2 10).2.drop
        (readInt (readInt rest 44).2 10).1.toNat with _ | ⟨c, r⟩
    · rfl
    · rw [hd] at hterm
      simp only [List.head?_cons, ne_eq, Option.some.injEq] at hterm
      dsimp only
      rw [if_neg hterm]
  · intro rest hc hterm
    rw [execReloadState_tagF st rest hc]
    simp only [handleF]
    rcases hd : ((readInt (readInt rest 44).2 10).2.drop (readInt rest 44).1.toNat).drop
        (readInt (readInt rest 44).2 10).1.toNat with _ | ⟨c, r⟩
    · rfl
    · rw [hd] at hterm
      simp only [List.head?_cons, ne_eq, Option.some.injEq] at hterm
      dsimp only
      rw [if_neg hterm]
  · intro rest hc h1 h2 hterm
    rw [execReloadState_tagQ st rest hc]
    simp only [handleQ]
    rw [if_neg (by simp [h1, h2])]
    rcases hd : (readInt (readInt rest 44).2 10).2.drop 2 with _ | ⟨c, r⟩
    · rfl
    · rw [hd] at hterm
      simp only [List.head?_cons, ne_eq, Option.some.injEq] at hterm
      dsimp only
      rw [if_neg hterm]
  · intro rest hc hterm
    rw [execReloadState_tagT st rest hc]
    simp only [handleT]
    rcases hd : ((readInt (readInt rest 44).2 10).2.drop (readInt rest 44).1.toNat).drop
        (readInt (readInt rest 44).2 10).1.toNat with _ | ⟨c, r⟩
    · rfl
    · rw [hd] at hterm
      simp only [List.head?_cons, ne_eq, Option.some.injEq] at hterm
      dsimp only
      rw [if_neg hterm]
  · intro c rest hc hne
    rw [execReloadState_tagV st _ hc]
    simp [handleV, hne]

theorem reload_fail_fast_checks_witness :
    execReloadState initState (strBytes "C2,1\nab\n") = .error .commentDelimLen ∧
    execReloadState initState (strBytes "Q1,2\nab\n") = .error .quoteDelimLen ∧
    execReloadState initState (strBytes "C1,1\nabX") = .error .missingNewlineC ∧
    execReloadState initState (strBytes "D0,1\nxy") = .error .missingNewlineD ∧
    execReloadState initState (strBytes "F1,1\nabX") = .error .missingNewlineF ∧
    execReloadState initState (strBytes "Q1,1\nabX") = .error .missingNewlineQ ∧
    execReloadState initState (strBytes "T1,1\nabX") = .error .missingNewlineT ∧
    execReloadState initState (strBytes "V1X") = .error .missingNewlineV := by
  have h := reload_fail_fast_checks initState
  exact ⟨h.1 (strBytes "2,1\nab\n") (by decide) (by decide),
    h.2.1 (strBytes "1,2\nab\n") (by decide) (by decide),
    h.2.2.1 (strBytes "1,1\nabX") (by decide) (by decide) (by decide) (by decide),
    h.2.2.2.1 (strBytes "0,1\nxy") (by decide) (by decide),
    h.2.2.2.2.1 (strBytes "1,1\nabX") (by decide) (by decide),
    h.2.2.2.2.2.1 (strBytes "1,1\nabX") (by decide) (by decide) (by decide) (by decide),
    h.2.2.2.2.2.2.1 (strBytes "1,1\nabX") (by decide) (by decide),
    h.2.2.2.2.2.2.2 88 [] (by decide) (by decide)⟩

/-- C8: a well-formed `D` record — diversion number, comma, length,
newline, that many content bytes, newline — sets the current diversion to
the parsed number and writes the content through the normal
diversion-write rule (`print_to_diversion`), before decoding continues on
the remaining input. -/
theorem d_record_sets_diversion_and_writes (st : RState) (body : List Nat)
    (hc : st.delims.comment_start ≠ 68)
    (hterm : ((readInt (readInt body 44).2 10).2.drop
        (readInt (readInt body 44).2 10).1.toNat).head? = some 10) :
    execReloadState st (68 :: body) =
      execReloadState
        { st with
          cur := (readInt body 44).1,
          bufs := (printToDiversion (readInt body 44).1
              ((readInt (readInt body 44).2 10).2.take
                  (readInt (readInt body 44).2 10).1.toNat ++
                List.replicate ((readInt (readInt body 44).2 10).1.toNat -
                  (readInt (readInt body 44).2 10).2.length) 35) st.bufs).2,
          out := st.out ++ (printToDiversion (readInt body 44).1
              ((readInt (readInt body 44).2 10).2.take
                  (readInt (readInt body 44).2 10).1.toNat ++
                List.replicate ((readInt (readInt body 44).2 10).1.toNat -
                  (readInt (readInt body 44).2 10).2.length) 35) st.bufs).1 }
        (((readInt (readInt body 44).2 10).2.drop
            (readInt (readInt body 44).2 10).1.toNat).tail) := by
  rw [execReloadState_tagD st body hc]
  simp only [handleD]
  rcases hd : (readInt (readInt body 44).2 10).2.drop
      (readInt (readInt body 44).2 10).1.toNat with _ | ⟨c, r⟩
  · rw [hd] at hterm
    simp at hterm
  · rw [hd] at hterm
    simp only [List.head?_cons, Option.some.injEq] at hterm
    subst hterm
    dsimp only
    rw [if_pos rfl]
    rfl

theorem d_record_sets_diversion_and_writes_witness :
    execReloadState initState (strBytes "D1,5\nhello\n") =
      .ok { defs := initDefs, cur := 1, bufs := [strBytes "hello"],
            delims := Delimiters.new, out := [] } := by
  have h := d_record_sets_diversion_and_writes initState (strBytes "1,5\nhello\n")
    (by decide) (by decide)
  exact h.trans (by decide)

theorem readIntGo_characterization (sep : Nat) : ∀ (l : List Nat) (acc : Int) (neg : Bool),
    readIntGo sep l acc neg =
      (wrap64 ((((l.takeWhile (fun c => c != sep)).filter (fun c => c != 45)).foldl
          (fun a c => wrap64 (wrap64 (a * 10) + Int.ofNat (sub48 c))) acc) *
        (if neg = true ∨ 45 ∈ l.takeWhile (fun c => c != sep) then -1 else 1)),
        (l.dropWhile (fun c => c != sep)).drop 1) := by
  intro l
  induction l with
  | nil =>
    intro acc neg
    cases neg <;> simp [readIntGo]
  | cons c rest ih =>
    intro acc neg
    simp only [readIntGo, List.takeWhile_cons, List.dropWhile_cons]
    by_cases hsep : c = sep
    · rw [if_pos hsep]
      cases neg <;> simp [hsep]
    · have hbne : (c != sep) = true := by simp [hsep]
      rw [if_neg hsep]
      by_cases h45 : c = 45
      · subst h45
        rw [if_pos rfl, ih acc true]
        simp only [hbne, if_true, List.filter_cons, List.mem_cons]
        norm_num
      · have h45' : ¬(45 = c) := fun hx => h45 hx.symm
        rw [if_neg h45, ih _ neg]
        simp only [hbne, if_true, List.filter_cons, List.mem_cons]
        have hb45 : (c != 45) = true := by simp [h45]
        simp [hb45, h45']

/-- C10: `read_int` never rejects its input — it consumes exactly the bytes
up to and including the first separator, a `-` byte anywhere makes the
whole result negative, and every other byte `b` (digit or not) is folded
into the accumulator as `result * 10 + (b - 48)` with wrapping; in
particular the non-digit field `"a,"` yields 742 rather than an error, and
`"1-2"` yields `-12`. -/
theorem read_int_total_characterization :
    (∀ (l : List Nat) (sep : Nat),
      (readInt l sep).2 = (l.dropWhile (fun c => c != sep)).drop 1) ∧
    (∀ (l : List Nat) (sep : Nat),
      (readInt l sep).1 =
        wrap64 (foldDigits ((l.takeWhile (fun c => c != sep)).filter (fun c => c != 45)) *
          (if 45 ∈ l.takeWhile (fun c => c != sep) then -1 else 1))) ∧
    (readInt [97, 44] 10).1 = 742 ∧
    (readInt [49, 45, 50] 10).1 = -12 := by
  refine ⟨?_, ?_, by decide, by decide⟩
  · intro l sep
    rw [show readInt l sep = readIntGo sep l 0 false from rfl, readIntGo_characterization]
  · intro l sep
    rw [show readInt l sep = readIntGo sep l 0 false from rfl, readIntGo_characterization]
    simp [foldDigits]
